import Mathlib

/- Verification development for the serde deserialization engine of
   collectd-rust-plugin (src/de/mod.rs).  The engine walks a grouped view of a
   collectd config document with an explicit frame stack and answers the
   type-directed requests of the external pull-based decode protocol.

   The stack is modelled as a Lean list whose head is the top frame (the Rust
   code stores frames in a Vec and treats the last element as the top).  Rust
   panics (index out of bounds, usize underflow) are modelled as the distinct
   outcome `Failure.crash`, while the error values returned by the engine are
   `Failure.err e` for `e : DeError`. -/

namespace CollectdDe

/-- Modelled from the spec: the scalar value model of api.rs, which is not among
the given sources (spec section 3): a tagged scalar holding a string, a float64
number, or a boolean. -/
inductive ConfigValue where
  | String (s : String)
  | Number (n : Float)
  | Boolean (b : Bool)

/-- Modelled from the spec: one item of the config document tree, `ConfigItem`
of api.rs, which is not among the given sources (spec section 3): a key, an
ordered list of scalar values, and an ordered list of nested children. -/
inductive ConfigItem where
  | mk (key : String) (values : List ConfigValue) (children : List ConfigItem)

def ConfigItem.key : ConfigItem → String
  | .mk k _ _ => k

def ConfigItem.values : ConfigItem → List ConfigValue
  | .mk _ vs _ => vs

def ConfigItem.children : ConfigItem → List ConfigItem
  | .mk _ _ cs => cs

/-- The per-key occurrence values handed to the deserializer.  The variants
`String`, `Number`, `Boolean` and `Object` are exactly the ones consumed by
src/de/mod.rs (`DeConfig` of de/deconfig.rs, whose file is not among the given
sources); `Object` carries a grouped scope, i.e. an ordered association list
from keys to occurrence values. -/
inductive DeConfig where
  | String (s : String)
  | Number (n : Float)
  | Boolean (b : Bool)
  | Object (obj : List (String × List DeConfig))

/-- Modelled from the spec: scalar conversion performed by the grouping step of
de/deconfig.rs (not among the given sources); each document scalar becomes the
corresponding occurrence scalar unchanged. -/
def configValueToDe : ConfigValue → DeConfig
  | .String s => .String s
  | .Number n => .Number n
  | .Boolean b => .Boolean b

/-- Modelled from the spec: insertion step of scope grouping (spec section 4.1).
A repeated key appends its occurrence values to the existing entry (repeat
order preserved, never merged away); a new key is appended at the end
(first-seen key order preserved). -/
def upsert (acc : List (String × List DeConfig)) (key : String)
    (vs : List DeConfig) : List (String × List DeConfig) :=
  match acc with
  | [] => [(key, vs)]
  | (k, xs) :: rest =>
      if k = key then (k, xs ++ vs) :: rest else (k, xs) :: upsert rest key vs

/-- Modelled from the spec: scope grouping of de/deconfig.rs (`from_config`,
not among the given sources; spec section 4.1).  The ordered item list of one
level is folded into an ordered unique-key list; an item contributes its scalar
values in order, followed by one `Object` occurrence built from its grouped
children when it has any. -/
def from_config_acc : List (String × List DeConfig) → List ConfigItem →
    List (String × List DeConfig)
  | acc, [] => acc
  | acc, .mk k vs [] :: rest =>
      from_config_acc (upsert acc k (vs.map configValueToDe)) rest
  | acc, .mk k vs (c :: cs) :: rest =>
      from_config_acc
        (upsert acc k
          (vs.map configValueToDe ++ [.Object (from_config_acc [] (c :: cs))]))
        rest
termination_by _ items => sizeOf items
decreasing_by all_goals simp_wf <;> omega

/-- Modelled from the spec: grouping of a whole document level (spec 4.1). -/
def from_config (items : List ConfigItem) : List (String × List DeConfig) :=
  from_config_acc [] items

/-- The error values of de/errors.rs (file not among the given sources; the
variant names are the ones raised in src/de/mod.rs, and `Custom` is the
`serde::de::Error::custom` catch-all used by the external protocol for missing
and duplicate fields).  Spec section 7 names map as follows: NoFramesLeft =
`NoMoreValuesLeft`, ExpectedSingleValue = `ExpectSingleValue`, WrongScalarKind =
`ExpectString`/`ExpectBoolean`/`ExpectNumber`, ExpectedKeyContext and
ExpectedStructContext = `ExpectStruct`, ExpectedObjectChildren = `ExpectObject`,
InvalidCharLength = `ExpectChar`, UnsupportedShape = `DataTypeNotSupported`. -/
inductive DeError where
  | NoMoreValuesLeft
  | ExpectSingleValue
  | ExpectBoolean
  | ExpectString
  | ExpectNumber
  | ExpectStruct
  | ExpectObject
  | ExpectChar (s : String)
  | DataTypeNotSupported
  | Custom (msg : String)
deriving DecidableEq

/-- Outcome tag of one engine step: a returned engine error, or a Rust panic
(out-of-bounds index / usize underflow), which the Rust code never returns as a
value. -/
inductive Failure where
  | err (e : DeError)
  | crash
deriving DecidableEq

/-- Result alias (`DeResult` of src/de/mod.rs). -/
abbrev DeResult (α : Type) := Except Failure α

/-- The frame type `DeType` of src/de/mod.rs: an `Item` binds one key to its
occurrence values; a `Struct` is a grouped scope with a field iteration index;
a `Seq` is an occurrence list with an element index. -/
inductive DeType where
  | Item (key : String) (values : List DeConfig)
  | Struct (values : List (String × List DeConfig)) (ind : Nat)
  | Seq (items : List DeConfig) (ind : Nat)

/-- Translated from `Deserializer::current` (mod.rs lines 40-46): top of the
frame stack, or the no-frames error when empty. -/
def current (st : List DeType) : DeResult DeType :=
  match st with
  | [] => .error (.err .NoMoreValuesLeft)
  | t :: _ => .ok t

/-- Translated from `Deserializer::grab_val` (mod.rs lines 48-60): on an `Item`
frame, demands exactly one occurrence value; on a `Seq` frame, returns the
element at the current index (a panicking index in Rust, hence `crash` when out
of range); otherwise the single-value error. -/
def grab_val (st : List DeType) : DeResult DeConfig :=
  match current st with
  | .error e => .error e
  | .ok (.Item _ values) =>
      match values with
      | [v] => .ok v
      | _ => .error (.err .ExpectSingleValue)
  | .ok (.Seq items ind) =>
      match items[ind]? with
      | some v => .ok v
      | none => .error .crash
  | .ok _ => .error (.err .ExpectSingleValue)

/-- Translated from `Deserializer::grab_string` (mod.rs lines 62-68). -/
def grab_string (st : List DeType) : DeResult String :=
  match grab_val st with
  | .error e => .error e
  | .ok (.String x) => .ok x
  | .ok _ => .error (.err .ExpectString)

/-- Translated from `Deserializer::grab_bool` (mod.rs lines 70-76). -/
def grab_bool (st : List DeType) : DeResult Bool :=
  match grab_val st with
  | .error e => .error e
  | .ok (.Boolean x) => .ok x
  | .ok _ => .error (.err .ExpectBoolean)

/-- Translated from `Deserializer::grab_number` (mod.rs lines 78-84). -/
def grab_number (st : List DeType) : DeResult Float :=
  match grab_val st with
  | .error e => .error e
  | .ok (.Number x) => .ok x
  | .ok _ => .error (.err .ExpectNumber)

/-- Translated from `Deserializer::pop` (mod.rs lines 86-88); `Vec::pop` on an
empty vector is a no-op. -/
def pop (st : List DeType) : List DeType := st.tail

/-- Translated from `Deserializer::push` (mod.rs lines 90-108).  The inspected
parent is the top frame when `pos = 0` and the second frame otherwise
(`depth.len() - cur`, which panics by underflow when too few frames exist).
When the parent is a `Struct`, its entry at `pos` (a panicking index) becomes
an `Item` frame, pushed for `pos = 0` and replacing the top otherwise; when the
parent is not a `Struct` nothing happens. -/
def push (pos : Nat) (st : List DeType) : DeResult (List DeType) :=
  match pos, st with
  | 0, [] => .error .crash
  | 0, frame :: rest =>
      match frame with
      | .Struct values _ind =>
          match values[0]? with
          | some (key, vs) => .ok (.Item key vs :: frame :: rest)
          | none => .error .crash
      | _ => .ok (frame :: rest)
  | _ + 1, [] => .error .crash
  | _ + 1, [_] => .error .crash
  | p + 1, top :: frame :: rest =>
      match frame with
      | .Struct values _ind =>
          match values[p + 1]? with
          | some (key, vs) => .ok (.Item key vs :: frame :: rest)
          | none => .error .crash
      | _ => .ok (top :: frame :: rest)

/-- Translated from `Deserializer::push_seq` (mod.rs lines 110-128).  Same
push-at-zero / replace-otherwise rule as `push`, but the inspected parent must
be an `Item` frame, whose whole occurrence list becomes a `Seq` frame with
element index `pos`. -/
def push_seq (pos : Nat) (st : List DeType) : DeResult (List DeType) :=
  match pos, st with
  | 0, [] => .error .crash
  | 0, frame :: rest =>
      match frame with
      | .Item _key values => .ok (.Seq values 0 :: frame :: rest)
      | _ => .ok (frame :: rest)
  | _ + 1, [] => .error .crash
  | _ + 1, [_] => .error .crash
  | p + 1, top :: frame :: rest =>
      match frame with
      | .Item _key values => .ok (.Seq values (p + 1) :: frame :: rest)
      | _ => .ok (top :: frame :: rest)

/-- Translated from `deserialize_identifier` (mod.rs lines 256-265): unlike all
other entry points it indexes `depth[depth.len() - 1]` directly, so an empty
stack panics (usize underflow, then out-of-bounds) instead of producing the
no-frames error; on an `Item` top frame the bound key is handed to the visitor,
otherwise the `ExpectStruct` error is returned. -/
def deserialize_identifier (st : List DeType) : DeResult String :=
  match st with
  | [] => .error .crash
  | v :: _ =>
      match v with
      | .Item key _ => .ok key
      | _ => .error (.err .ExpectStruct)

/-- Modelled from the spec: the shape of a caller-defined target type, the only
information the external pull-based decode protocol (spec section 6) feeds back
to the engine.  Each constructor corresponds to one deserializer entry point of
src/de/mod.rs: scalar requests, `char`, `Option`, sequences, structs, the
ignored-any request, and the shapes that `forward_to_deserialize_any!` routes
to `deserialize_any` (maps, enums, tuples, byte buffers, unit types). -/
inductive Shape where
  | sbool
  | sstr
  | snum
  | schar
  | sopt (s : Shape)
  | sseq (s : Shape)
  | sstruct (fields : List (String × Shape))
  | signored
  | smap
  | senum
  | stuple
  | sbytes
  | sunit

/-- Modelled from the spec: the decoded value a target of a given shape holds
(the output contract of spec section 6). -/
inductive Val where
  | vb (b : Bool)
  | vs (s : String)
  | vn (n : Float)
  | vc (c : Char)
  | vopt (v : Option Val)
  | vseq (vs : List Val)
  | vstruct (fields : List (String × Val))
  | vignored

/-- Translated from `deserialize_char` (mod.rs lines 243-254): grabs a string
and rejects it with `ExpectChar` unless its Rust byte length (`str::len`, i.e.
its UTF-8 byte size) is exactly 1; otherwise the first character is handed to
the visitor (`unwrap` of the first char is a panic on an empty string, which a
byte size of 1 rules out). -/
def deserialize_char (st : List DeType) : DeResult (Val × List DeType) :=
  match grab_string st with
  | .error e => .error e
  | .ok x =>
      if x.utf8ByteSize ≠ 1 then .error (.err (.ExpectChar x))
      else
        match x.data with
        | c :: _ => .ok (.vc c, st)
        | [] => .error .crash

/-- Translated from `deserialize_ignored_any` (mod.rs lines 316-321): the
visitor is handed `visit_none` without the stack being touched; the external
`IgnoredAny` visitor always succeeds. -/
def deserialize_ignored_any (st : List DeType) : DeResult (Val × List DeType) :=
  .ok (.vignored, st)

/-- Translated from `deserialize_any` (mod.rs lines 323-334): always the
unsupported-data-type error; `forward_to_deserialize_any!` routes maps, enums,
tuples, byte buffers and unit types here. -/
def deserialize_any (_st : List DeType) : DeResult (Val × List DeType) :=
  .error (.err .DataTypeNotSupported)

/-- Modelled from the spec: the field lookup performed by the generated field
identifier visitor of the external protocol (spec section 6), which maps a
document key to the target field of that exact name, or to the ignore slot when
no field matches. -/
def findDec {α : Type} : List (String × α) → String → Option (String × α)
  | [], _ => none
  | (k, d) :: rest, key => if k = key then some (k, d) else findDec rest key

/-- Modelled from the spec: what the external protocol substitutes for a field
the document never presented: an `Option` field becomes the absent value, any
other field is a missing-field error (spec section 4.3, requestOptional). -/
def missing_or_default : Shape → DeResult Val
  | .sopt _ => .ok (.vopt none)
  | _ => .error (.err (.Custom "missing field"))

/-- Modelled from the spec: the assembly step of the generated struct visitor
at the end of `visit_map`: each declared field takes its recorded value, or its
missing-field substitute (spec sections 4.3 and 6). -/
def assemble (acc : List (String × Val)) : List (String × Shape) →
    DeResult (List (String × Val))
  | [] => .ok []
  | (name, sh) :: rest =>
      match (match findDec acc name with
             | some (_, v) => (.ok v : DeResult Val)
             | none => missing_or_default sh) with
      | .error e => .error e
      | .ok v =>
          match assemble acc rest with
          | .error e => .error e
          | .ok tail => .ok ((name, v) :: tail)

/-- Translated from `SeqSeparated::next_element_seed` (mod.rs lines 397-415),
iterated by the external `visit_seq` driver: while the position has not reached
the count, `push_seq(pos)` then decode one element; on exhaustion pop exactly
once unless the count is zero.  The extra `fuel` argument only bounds the
recursion; every run below starts with `fuel = count` and keeps
`fuel = count - pos`, so the fuel-exhaustion branch is unreachable. -/
def next_element_loop (dec : List DeType → DeResult (Val × List DeType))
    (item_count : Nat) :
    Nat → Nat → List Val → List DeType → DeResult (List Val × List DeType)
  | fuel, item_pos, acc, st =>
    if item_pos = item_count then
      if item_count ≠ 0 then .ok (acc, pop st) else .ok (acc, st)
    else
      match fuel with
      | 0 => .error .crash
      | fuel' + 1 =>
          match push_seq item_pos st with
          | .error e => .error e
          | .ok st1 =>
              match dec st1 with
              | .error e => .error e
              | .ok (v, st2) =>
                  next_element_loop dec item_count fuel' (item_pos + 1)
                    (acc ++ [v]) st2

/-- Translated from `FieldSeparated::next_key_seed` / `next_value_seed`
(mod.rs lines 356-378), iterated by the generated struct visitor of the
external protocol: while the position has not reached the count, `push(pos)`,
deserialize the key identifier, then either decode the matching field value
(rejecting a duplicate), or consume the unknown key with the ignored-any
request; on exhaustion pop exactly once unless the count is zero.  As above,
`fuel` only bounds the recursion and every run keeps `fuel = count - pos`. -/
def next_key_loop
    (fdecs : List (String × (List DeType → DeResult (Val × List DeType))))
    (item_count : Nat) :
    Nat → Nat → List (String × Val) → List DeType →
      DeResult (List (String × Val) × List DeType)
  | fuel, item_pos, acc, st =>
    if item_pos = item_count then
      if item_count ≠ 0 then .ok (acc, pop st) else .ok (acc, st)
    else
      match fuel with
      | 0 => .error .crash
      | fuel' + 1 =>
          match push item_pos st with
          | .error e => .error e
          | .ok st1 =>
              match deserialize_identifier st1 with
              | .error e => .error e
              | .ok key =>
                  match findDec fdecs key with
                  | some (name, dec) =>
                      if (acc.map Prod.fst).contains name then
                        .error (.err (.Custom "duplicate field"))
                      else
                        match dec st1 with
                        | .error e => .error e
                        | .ok (v, st2) =>
                            next_key_loop fdecs item_count fuel' (item_pos + 1)
                              (acc ++ [(name, v)]) st2
                  | none =>
                      match deserialize_ignored_any st1 with
                      | .error e => .error e
                      | .ok (_, st2) =>
                          next_key_loop fdecs item_count fuel' (item_pos + 1)
                            acc st2

mutual
/-- One decode request of the external protocol against the engine, by target
shape.  Scalars are the entry points `deserialize_bool` / `deserialize_str` /
`deserialize_string` / `deserialize_f64` (mod.rs lines 143-234), which pass the
grabbed scalar through the visitor untouched; `sopt` is `deserialize_option`
(lines 236-241, always `visit_some`); `sseq` is `deserialize_seq` (lines
267-278); `sstruct` is `deserialize_struct` (lines 280-314) together with the
generated struct visitor; the remaining shapes are `deserialize_ignored_any`
and the `deserialize_any` forwards. -/
def decode : Shape → List DeType → DeResult (Val × List DeType)
  | .sbool, st =>
      match grab_bool st with
      | .error e => .error e
      | .ok b => .ok (.vb b, st)
  | .sstr, st =>
      match grab_string st with
      | .error e => .error e
      | .ok s => .ok (.vs s, st)
  | .snum, st =>
      match grab_number st with
      | .error e => .error e
      | .ok n => .ok (.vn n, st)
  | .schar, st => deserialize_char st
  | .sopt s, st =>
      match decode s st with
      | .error e => .error e
      | .ok (v, st2) => .ok (.vopt (some v), st2)
  | .sseq s, st =>
      match current st with
      | .error e => .error e
      | .ok (.Item _key v) =>
          match next_element_loop (fun st2 => decode s st2) v.length v.length
              0 [] st with
          | .error e => .error e
          | .ok (vs2, st2) => .ok (.vseq vs2, st2)
      | .ok _ => .error (.err .ExpectStruct)
  | .sstruct fields, st =>
      match current st with
      | .error e => .error e
      | .ok (.Struct values _ind) =>
          match next_key_loop (decoders fields) values.length values.length
              0 [] st with
          | .error e => .error e
          | .ok (acc, st2) =>
              match assemble acc fields with
              | .error e => .error e
              | .ok fvs => .ok (.vstruct fvs, st2)
      | .ok (.Seq values ind) =>
          match values[ind]? with
          | none => .error .crash
          | some (.Object obj) =>
              match next_key_loop (decoders fields) obj.length obj.length
                  0 [] (.Struct obj 0 :: st) with
              | .error e => .error e
              | .ok (acc, st2) =>
                  match assemble acc fields with
                  | .error e => .error e
                  | .ok fvs => .ok (.vstruct fvs, pop st2)
          | some _ => .error (.err .ExpectObject)
      | .ok (.Item _ _) =>
          match next_key_loop (decoders fields) 0 0 0 [] st with
          | .error e => .error e
          | .ok (acc, st2) =>
              match assemble acc fields with
              | .error e => .error e
              | .ok fvs => .ok (.vstruct fvs, st2)
  | .signored, st => deserialize_ignored_any st
  | .smap, st => deserialize_any st
  | .senum, st => deserialize_any st
  | .stuple, st => deserialize_any st
  | .sbytes, st => deserialize_any st
  | .sunit, st => deserialize_any st
termination_by sh _ => sizeOf sh

/-- The per-field decoders the generated struct visitor dispatches to, in field
declaration order. -/
def decoders : List (String × Shape) →
    List (String × (List DeType → DeResult (Val × List DeType)))
  | [] => []
  | (k, s) :: rest => (k, fun st => decode s st) :: decoders rest
termination_by fs => sizeOf fs
end

/-- Translated from the top-level `from_collectd` (mod.rs lines 131-138): group
the document and seed the stack with exactly one root `Struct` frame, then run
the requested decode.  The final stack is kept in the result so that the
traversal invariants can be stated. -/
def from_collectd (sh : Shape) (s : List ConfigItem) :
    DeResult (Val × List DeType) :=
  let props := from_config s
  decode sh [.Struct props 0]

/-- The target shape whose scalar kind matches a given document scalar. -/
def ConfigValue.kindShape : ConfigValue → Shape
  | .String _ => .sstr
  | .Number _ => .snum
  | .Boolean _ => .sbool

/-- The decoded value a document scalar becomes when read at matching kind. -/
def ConfigValue.toVal : ConfigValue → Val
  | .String s => .vs s
  | .Number n => .vn n
  | .Boolean b => .vb b

/-- Claim C4: for every scalar read, an `Item` frame whose occurrence-value
list has length different from one fails with the single-value error; a single
value (or an in-range `Seq` element) of the wrong stored kind fails with the
wrong-kind error of the requested kind; otherwise the stored scalar is
returned. -/
theorem claim4_scalar_read_errors :
    (∀ k values rest, values.length ≠ 1 →
      grab_bool (DeType.Item k values :: rest) =
          .error (.err .ExpectSingleValue) ∧
      grab_string (DeType.Item k values :: rest) =
          .error (.err .ExpectSingleValue) ∧
      grab_number (DeType.Item k values :: rest) =
          .error (.err .ExpectSingleValue)) ∧
    (∀ k v rest,
      grab_bool (DeType.Item k [v] :: rest) =
        (match v with
         | .Boolean b => .ok b
         | _ => .error (.err .ExpectBoolean)) ∧
      grab_string (DeType.Item k [v] :: rest) =
        (match v with
         | .String s => .ok s
         | _ => .error (.err .ExpectString)) ∧
      grab_number (DeType.Item k [v] :: rest) =
        (match v with
         | .Number n => .ok n
         | _ => .error (.err .ExpectNumber))) ∧
    (∀ items ind rest v, items[ind]? = some v →
      grab_bool (DeType.Seq items ind :: rest) =
        (match v with
         | .Boolean b => .ok b
         | _ => .error (.err .ExpectBoolean)) ∧
      grab_string (DeType.Seq items ind :: rest) =
        (match v with
         | .String s => .ok s
         | _ => .error (.err .ExpectString)) ∧
      grab_number (DeType.Seq items ind :: rest) =
        (match v with
         | .Number n => .ok n
         | _ => .error (.err .ExpectNumber))) := by
  refine ⟨?_, ?_, ?_⟩
  · intro k values rest h
    match values, h with
    | [], _ => simp [grab_bool, grab_string, grab_number, grab_val, current]
    | [v], h => simp at h
    | a :: b :: t, _ =>
        simp [grab_bool, grab_string, grab_number, grab_val, current]
  · intro k v rest
    cases v <;> simp [grab_bool, grab_string, grab_number, grab_val, current]
  · intro items ind rest v h
    cases v <;>
      simp [grab_bool, grab_string, grab_number, grab_val, current, h]

/-- Witness for claim C4 at concrete inputs: an empty occurrence list trips
the single-value error, and a string stored in a sequence element trips the
wrong-kind error of a boolean request. -/
theorem claim4_scalar_read_errors_witness :
    (([] : List DeConfig).length ≠ 1 ∧
      grab_bool [DeType.Item "k" []] = .error (.err .ExpectSingleValue)) ∧
    ([DeConfig.String "x"][0]? = some (DeConfig.String "x") ∧
      grab_bool [DeType.Seq [DeConfig.String "x"] 0] =
        .error (.err .ExpectBoolean)) := by
  refine ⟨⟨by decide, (claim4_scalar_read_errors.1 "k" [] [] (by decide)).1⟩,
    ⟨rfl, ?_⟩⟩
  have h :=
    (claim4_scalar_read_errors.2.2 [DeConfig.String "x"] 0 []
      (DeConfig.String "x") rfl).1
  simpa using h

/-- Counterexample to claim C6 as stated: the one-character string of the
two-byte character is exactly one character long, yet the char decode fails
with the char-length error instead of succeeding, because the source checks
the UTF-8 byte length `str::len`, not the character count. -/
theorem claim6_one_char_multibyte_fails :
    ("é" : String).length = 1 ∧
    deserialize_char [DeType.Item "k" [DeConfig.String "é"]] =
      .error (.err (.ExpectChar "é")) := by
  constructor
  · decide
  · simp [deserialize_char, grab_string, grab_val, current]
    decide

/-- Claim C6 as amended: a character-typed field decoded from a string value
fails with the char-length error unless the string is exactly one UTF-8 byte
long (a single one-byte character), and succeeds yielding that character
otherwise. -/
theorem claim6_char_byte_length :
    (∀ k s rest, s.utf8ByteSize ≠ 1 →
      deserialize_char (DeType.Item k [DeConfig.String s] :: rest) =
        .error (.err (.ExpectChar s))) ∧
    (∀ k c rest, c.utf8Size = 1 →
      deserialize_char
          (DeType.Item k [DeConfig.String (String.mk [c])] :: rest) =
        .ok (.vc c, DeType.Item k [DeConfig.String (String.mk [c])] :: rest)) := by
  constructor
  · intro k s rest h
    simp [deserialize_char, grab_string, grab_val, current, h]
  · intro k c rest h
    have hb : (String.mk [c]).utf8ByteSize = c.utf8Size := by
      simp [String.utf8ByteSize, String.utf8ByteSize.go]
    simp [deserialize_char, grab_string, grab_val, current, hb, h]

/-- Witness for claim C6 at concrete inputs: the two-byte string "ab" fails,
the one-byte character string "a" succeeds. -/
theorem claim6_char_byte_length_witness :
    (("ab" : String).utf8ByteSize ≠ 1 ∧
      deserialize_char [DeType.Item "k" [DeConfig.String "ab"]] =
        .error (.err (.ExpectChar "ab"))) ∧
    (('a' : Char).utf8Size = 1 ∧
      deserialize_char [DeType.Item "k" [DeConfig.String (String.mk ['a'])]] =
        .ok (.vc 'a', [DeType.Item "k" [DeConfig.String (String.mk ['a'])]])) :=
  ⟨⟨by decide, claim6_char_byte_length.1 "k" "ab" [] (by decide)⟩,
   ⟨by decide, claim6_char_byte_length.2 "k" 'a' [] (by decide)⟩⟩

/-- Counterexample to claim C7 as stated: with an empty frame stack the cursor
is not positioned on a bound field, yet the identifier request does not return
the key-context error value — it panics (modelled as `crash`) by indexing
`depth[depth.len() - 1]` on an empty vector. -/
theorem claim7_empty_stack_panics_not_error :
    deserialize_identifier [] = .error .crash ∧
    (Failure.crash ≠ Failure.err .ExpectStruct) := by
  exact ⟨rfl, by decide⟩

/-- Claim C7 as amended: whenever at least one frame exists, the identifier
request returns the bound key of an `Item` top frame and fails with the
key-context error (`ExpectStruct`) on a `Struct` or `Seq` top frame; the
empty-stack case panics instead of returning an error value. -/
theorem claim7_identifier_on_frames :
    (∀ key values rest,
      deserialize_identifier (DeType.Item key values :: rest) = .ok key) ∧
    (∀ values ind rest,
      deserialize_identifier (DeType.Struct values ind :: rest) =
        .error (.err .ExpectStruct)) ∧
    (∀ items ind rest,
      deserialize_identifier (DeType.Seq items ind :: rest) =
        .error (.err .ExpectStruct)) := by
  refine ⟨fun _ _ _ => rfl, fun _ _ _ => rfl, fun _ _ _ => rfl⟩

/-- Claim C9: for every cursor state, requesting any of the unsupported shapes
(map, enum, tuple, byte buffer, unit type — all forwarded to
`deserialize_any`) fails with the unsupported-data-type error. -/
theorem claim9_unsupported_shapes_fail :
    ∀ st, deserialize_any st = .error (.err .DataTypeNotSupported) ∧
      decode .smap st = .error (.err .DataTypeNotSupported) ∧
      decode .senum st = .error (.err .DataTypeNotSupported) ∧
      decode .stuple st = .error (.err .DataTypeNotSupported) ∧
      decode .sbytes st = .error (.err .DataTypeNotSupported) ∧
      decode .sunit st = .error (.err .DataTypeNotSupported) := by
  intro st
  refine ⟨rfl, ?_, ?_, ?_, ?_, ?_⟩ <;> simp [decode, deserialize_any]

/-- Claim C10: on an empty frame stack the identifier request panics (direct
indexing `depth[len - 1]`, modelled as `crash`), while every other entry point
that reaches the top frame goes through the guarded `current` accessor and
returns the no-frames error value. -/
theorem claim10_identifier_empty_stack_panic :
    deserialize_identifier [] = .error .crash ∧
    current [] = .error (.err .NoMoreValuesLeft) ∧
    grab_val [] = .error (.err .NoMoreValuesLeft) ∧
    grab_bool [] = .error (.err .NoMoreValuesLeft) ∧
    grab_string [] = .error (.err .NoMoreValuesLeft) ∧
    grab_number [] = .error (.err .NoMoreValuesLeft) ∧
    deserialize_char [] = .error (.err .NoMoreValuesLeft) ∧
    (∀ s, decode (.sseq s) [] = .error (.err .NoMoreValuesLeft)) ∧
    (∀ fields, decode (.sstruct fields) [] =
      .error (.err .NoMoreValuesLeft)) := by
  refine ⟨rfl, rfl, rfl, rfl, rfl, rfl, rfl, ?_, ?_⟩
  · intro s
    simp [decode, current]
  · intro fields
    simp [decode, current]

/-- Claim C1: a document holding exactly one item with key K and exactly one
scalar value V, decoded into a struct with the single field K of matching
scalar kind, succeeds and yields the struct whose field equals V (the final
stack being the untouched root frame). -/
theorem claim1_scalar_field_roundtrip :
    ∀ (K : String) (cv : ConfigValue),
      from_collectd (.sstruct [(K, cv.kindShape)]) [.mk K [cv] []] =
        .ok (.vstruct [(K, cv.toVal)],
             [.Struct [(K, [configValueToDe cv])] 0]) := by
  intro K cv
  cases cv <;>
    simp [from_collectd, from_config, from_config_acc, upsert, decode,
      decoders, next_key_loop, push, deserialize_identifier, findDec,
      grab_bool, grab_string, grab_number, grab_val, current, assemble, pop,
      configValueToDe, ConfigValue.kindShape, ConfigValue.toVal]

/-- Claim C5: an optional struct field decoded against the empty document
yields the absent value; the same field decoded against a document where the
key appears once with a matching scalar yields the present value wrapping the
decoded scalar; and the option entry point itself always takes the
value-present path (`visit_some`), never producing the absent value itself. -/
theorem claim5_optional_field :
    (∀ (K : String) (s : Shape),
      from_collectd (.sstruct [(K, .sopt s)]) [] =
        .ok (.vstruct [(K, .vopt none)], [.Struct [] 0])) ∧
    (∀ (K : String) (cv : ConfigValue),
      from_collectd (.sstruct [(K, .sopt cv.kindShape)]) [.mk K [cv] []] =
        .ok (.vstruct [(K, .vopt (some cv.toVal))],
             [.Struct [(K, [configValueToDe cv])] 0])) ∧
    (∀ (s : Shape) (st : List DeType),
      decode (.sopt s) st =
        match decode s st with
        | .error e => .error e
        | .ok (v, st2) => .ok (.vopt (some v), st2)) := by
  refine ⟨?_, ?_, ?_⟩
  · intro K s
    simp [from_collectd, from_config, from_config_acc, decode, decoders,
      next_key_loop, current, assemble, findDec, missing_or_default]
  · intro K cv
    cases cv <;>
      simp [from_collectd, from_config, from_config_acc, upsert, decode,
        decoders, next_key_loop, push, deserialize_identifier, findDec,
        grab_bool, grab_string, grab_number, grab_val, current, assemble, pop,
        configValueToDe, ConfigValue.kindShape, ConfigValue.toVal]
  · intro s st
    simp only [decode]

/-- Grouping a run of items that all share one key folds their single values
into the existing entry for that key, in document order. -/
lemma from_config_acc_repeat (K : String) :
    ∀ (vs : List ConfigValue) (xs : List DeConfig),
      from_config_acc [(K, xs)] (vs.map fun v => .mk K [v] []) =
        [(K, xs ++ vs.map configValueToDe)] := by
  intro vs
  induction vs with
  | nil => intro xs; simp [from_config_acc]
  | cons v vt ih =>
      intro xs
      simp [from_config_acc, upsert, ih]

/-- Grouping a nonempty run of single-value items sharing one key yields the
single scope entry carrying the values in document order. -/
lemma from_config_repeat (K : String) (v : ConfigValue)
    (vt : List ConfigValue) :
    from_config ((v :: vt).map fun x => .mk K [x] []) =
      [(K, (v :: vt).map configValueToDe)] := by
  simp [from_config, from_config_acc, upsert, from_config_acc_repeat]

/-- Runs of `SeqSeparated::next_element_seed` from position `q + 1` with a
frame stack positioned inside the element loop: each step replaces the top
`Seq` frame in place, consumes one element, and exhaustion pops exactly once,
returning the remaining elements in document order. -/
lemma next_element_loop_scalar {α : Type} (mkDe : α → DeConfig)
    (mkVal : α → Val) (dec : List DeType → DeResult (Val × List DeType))
    (xs : List α) (count : Nat) (hcount : count = xs.length)
    (hdec : ∀ (q : Nat) (r : List DeType) (h : q < xs.length),
      dec (DeType.Seq (xs.map mkDe) q :: r) =
        .ok (mkVal (xs.get ⟨q, h⟩), DeType.Seq (xs.map mkDe) q :: r)) :
    ∀ (fuel q : Nat) (acc : List Val) (k : String) (r : List DeType),
      q + 1 + fuel = xs.length →
      next_element_loop dec count fuel (q + 1) acc
          (DeType.Seq (xs.map mkDe) q :: DeType.Item k (xs.map mkDe) :: r) =
        .ok (acc ++ (xs.drop (q + 1)).map mkVal,
             DeType.Item k (xs.map mkDe) :: r) := by
  subst hcount
  intro fuel
  induction fuel with
  | zero =>
      intro q acc k r hlen
      have h1 : q + 1 = xs.length := by omega
      unfold next_element_loop
      rw [if_pos h1, if_pos (by omega : xs.length ≠ 0)]
      rw [h1, List.drop_length]
      simp [pop]
  | succ fl ih =>
      intro q acc k r hlen
      have hq : q + 1 ≠ xs.length := by omega
      have hlt : q + 1 < xs.length := by omega
      unfold next_element_loop
      rw [if_neg hq]
      simp only [push_seq]
      rw [hdec (q + 1) (DeType.Item k (xs.map mkDe) :: r) hlt]
      simp only []
      rw [ih (q + 1) (acc ++ [mkVal (xs.get ⟨q + 1, hlt⟩)]) k r (by omega)]
      have hdrop : List.drop (q + 1) (List.map mkVal xs) =
          mkVal (xs.get ⟨q + 1, hlt⟩) ::
            List.drop (q + 1 + 1) (List.map mkVal xs) := by
        rw [List.drop_eq_getElem_cons
          (show q + 1 < (List.map mkVal xs).length by simpa using hlt)]
        simp
      simp [hdrop]

/-- A sequence request against an `Item` frame of mapped scalar occurrences
decodes every occurrence in document order, leaving the stack unchanged. -/
lemma decode_sseq_scalar {α : Type} (mkDe : α → DeConfig) (mkVal : α → Val)
    (sh : Shape) (xs : List α)
    (hdec : ∀ (q : Nat) (r : List DeType) (h : q < xs.length),
      decode sh (DeType.Seq (xs.map mkDe) q :: r) =
        .ok (mkVal (xs.get ⟨q, h⟩), DeType.Seq (xs.map mkDe) q :: r)) :
    ∀ (k : String) (r : List DeType),
      decode (.sseq sh) (DeType.Item k (xs.map mkDe) :: r) =
        .ok (.vseq (xs.map mkVal), DeType.Item k (xs.map mkDe) :: r) := by
  intro k r
  rw [decode]
  simp only [current, List.length_map]
  match xs, hdec with
  | [], _ =>
      unfold next_element_loop
      simp
  | x :: xt, hdec =>
      unfold next_element_loop
      rw [if_neg (by simp : (0 : Nat) ≠ (x :: xt).length)]
      simp only [List.length_cons]
      simp only [push_seq]
      rw [hdec 0 (DeType.Item k ((x :: xt).map mkDe) :: r) (by simp)]
      simp only []
      have hloop := next_element_loop_scalar mkDe mkVal
        (fun st2 => decode sh st2) (x :: xt) (xt.length + 1) (by simp) hdec
        xt.length 0 ([] ++ [mkVal ((x :: xt).get ⟨0, by simp⟩)]) k r
        (by simp only [List.length_cons]; omega)
      rw [hloop]
      simp

/-- Element reads of a boolean sequence. -/
lemma decode_seq_elem_bool (bs : List Bool) :
    ∀ (q : Nat) (r : List DeType) (h : q < bs.length),
      decode .sbool (DeType.Seq (bs.map fun b => DeConfig.Boolean b) q :: r) =
        .ok (.vb (bs.get ⟨q, h⟩),
             DeType.Seq (bs.map fun b => DeConfig.Boolean b) q :: r) := by
  intro q r h
  rw [decode]
  simp [grab_bool, grab_val, current, List.getElem?_eq_getElem
    (by simpa using h : q < (bs.map fun b => DeConfig.Boolean b).length)]

/-- Element reads of a number sequence. -/
lemma decode_seq_elem_number (ns : List Float) :
    ∀ (q : Nat) (r : List DeType) (h : q < ns.length),
      decode .snum (DeType.Seq (ns.map fun n => DeConfig.Number n) q :: r) =
        .ok (.vn (ns.get ⟨q, h⟩),
             DeType.Seq (ns.map fun n => DeConfig.Number n) q :: r) := by
  intro q r h
  rw [decode]
  simp [grab_number, grab_val, current, List.getElem?_eq_getElem
    (by simpa using h : q < (ns.map fun n => DeConfig.Number n).length)]

/-- Element reads of a string sequence. -/
lemma decode_seq_elem_string (ss : List String) :
    ∀ (q : Nat) (r : List DeType) (h : q < ss.length),
      decode .sstr (DeType.Seq (ss.map fun s => DeConfig.String s) q :: r) =
        .ok (.vs (ss.get ⟨q, h⟩),
             DeType.Seq (ss.map fun s => DeConfig.String s) q :: r) := by
  intro q r h
  rw [decode]
  simp [grab_string, grab_val, current, List.getElem?_eq_getElem
    (by simpa using h : q < (ss.map fun s => DeConfig.String s).length)]

/-- Decoding a struct with a single field backed by a stack-preserving field
decoder succeeds, popping the pushed item frame on exhaustion. -/
lemma decode_single_field_struct (K : String) (sh : Shape)
    (des : List DeConfig) (v : Val)
    (hdec : ∀ r, decode sh (DeType.Item K des :: r) =
      .ok (v, DeType.Item K des :: r)) :
    decode (.sstruct [(K, sh)]) [DeType.Struct [(K, des)] 0] =
      .ok (.vstruct [(K, v)], [DeType.Struct [(K, des)] 0]) := by
  rw [decode]
  simp [current, decoders, next_key_loop, push, deserialize_identifier,
    findDec, assemble, pop, hdec]

/-- Counterexample to claim C2 as stated at N = 0: with zero occurrences of
the key, the grouped scope never presents the field, so the external protocol
substitutes the missing-field failure for the non-optional sequence field
instead of producing an empty sequence. -/
theorem claim2_zero_occurrences_fails :
    from_collectd (.sstruct [("k", .sseq .sbool)]) [] =
      .error (.err (.Custom "missing field")) := by
  simp [from_collectd, from_config, from_config_acc, decode, decoders,
    next_key_loop, current, assemble, findDec, missing_or_default]

/-- Claim C2 as amended: for every document in which key K appears N ≥ 1
times, each occurrence carrying exactly one scalar, decoding into a struct
whose field K is declared as a sequence yields a sequence of exactly N
elements in the occurrences document order (at N = 0 the missing non-optional
field fails instead, as the counterexample shows). -/
theorem claim2_seq_field_document_order :
    (∀ (K : String) (b : Bool) (bs : List Bool),
      from_collectd (.sstruct [(K, .sseq .sbool)])
          ((b :: bs).map fun x => .mk K [.Boolean x] []) =
        .ok (.vstruct [(K, .vseq ((b :: bs).map Val.vb))],
             [.Struct [(K, (b :: bs).map fun x => DeConfig.Boolean x)] 0])) ∧
    (∀ (K : String) (n : Float) (ns : List Float),
      from_collectd (.sstruct [(K, .sseq .snum)])
          ((n :: ns).map fun x => .mk K [.Number x] []) =
        .ok (.vstruct [(K, .vseq ((n :: ns).map Val.vn))],
             [.Struct [(K, (n :: ns).map fun x => DeConfig.Number x)] 0])) ∧
    (∀ (K : String) (s : String) (ss : List String),
      from_collectd (.sstruct [(K, .sseq .sstr)])
          ((s :: ss).map fun x => .mk K [.String x] []) =
        .ok (.vstruct [(K, .vseq ((s :: ss).map Val.vs))],
             [.Struct [(K, (s :: ss).map fun x => DeConfig.String x)] 0])) := by
  refine ⟨?_, ?_, ?_⟩
  · intro K b bs
    have hgroup := from_config_repeat K (ConfigValue.Boolean b)
      (bs.map ConfigValue.Boolean)
    have hmap : ((ConfigValue.Boolean b :: bs.map ConfigValue.Boolean).map
        configValueToDe) = (b :: bs).map fun x => DeConfig.Boolean x := by
      simp [configValueToDe, Function.comp]
    have hseq := decode_sseq_scalar (fun x => DeConfig.Boolean x) Val.vb
      .sbool (b :: bs) (decode_seq_elem_bool (b :: bs)) K
    have hstruct := decode_single_field_struct K (.sseq .sbool)
      ((b :: bs).map fun x => DeConfig.Boolean x) (.vseq ((b :: bs).map Val.vb))
      hseq
    show decode _ [.Struct (from_config _) 0] = _
    have hdoc : ((b :: bs).map fun x => ConfigItem.mk K [.Boolean x] []) =
        ((ConfigValue.Boolean b :: bs.map ConfigValue.Boolean).map
          fun v => ConfigItem.mk K [v] []) := by
      simp [Function.comp]
    rw [hdoc, hgroup, hmap, hstruct]
  · intro K n ns
    have hgroup := from_config_repeat K (ConfigValue.Number n)
      (ns.map ConfigValue.Number)
    have hmap : ((ConfigValue.Number n :: ns.map ConfigValue.Number).map
        configValueToDe) = (n :: ns).map fun x => DeConfig.Number x := by
      simp [configValueToDe, Function.comp]
    have hseq := decode_sseq_scalar (fun x => DeConfig.Number x) Val.vn
      .snum (n :: ns) (decode_seq_elem_number (n :: ns)) K
    have hstruct := decode_single_field_struct K (.sseq .snum)
      ((n :: ns).map fun x => DeConfig.Number x) (.vseq ((n :: ns).map Val.vn))
      hseq
    show decode _ [.Struct (from_config _) 0] = _
    have hdoc : ((n :: ns).map fun x => ConfigItem.mk K [.Number x] []) =
        ((ConfigValue.Number n :: ns.map ConfigValue.Number).map
          fun v => ConfigItem.mk K [v] []) := by
      simp [Function.comp]
    rw [hdoc, hgroup, hmap, hstruct]
  · intro K s ss
    have hgroup := from_config_repeat K (ConfigValue.String s)
      (ss.map ConfigValue.String)
    have hmap : ((ConfigValue.String s :: ss.map ConfigValue.String).map
        configValueToDe) = (s :: ss).map fun x => DeConfig.String x := by
      simp [configValueToDe, Function.comp]
    have hseq := decode_sseq_scalar (fun x => DeConfig.String x) Val.vs
      .sstr (s :: ss) (decode_seq_elem_string (s :: ss)) K
    have hstruct := decode_single_field_struct K (.sseq .sstr)
      ((s :: ss).map fun x => DeConfig.String x) (.vseq ((s :: ss).map Val.vs))
      hseq
    show decode _ [.Struct (from_config _) 0] = _
    have hdoc : ((s :: ss).map fun x => ConfigItem.mk K [.String x] []) =
        ((ConfigValue.String s :: ss.map ConfigValue.String).map
          fun v => ConfigItem.mk K [v] []) := by
      simp [Function.comp]
    rw [hdoc, hgroup, hmap, hstruct]

/-- Outcome correspondence for one traversal step run against two stacks that
agree on every frame the step may inspect: on success the first run returns
the stack `base1` unchanged and the second run succeeds with the same value
and its own base stack; on error the second run fails identically. -/
def RelBelow {β : Type} (base1 base2 : List DeType)
    (o1 o2 : DeResult (β × List DeType)) : Prop :=
  match o1 with
  | .ok (v, st') => st' = base1 ∧ o2 = .ok (v, base2)
  | .error e => o2 = .error e

/-- The scalar grab inspects only the top frame. -/
lemma grab_val_cons (t : DeType) (r : List DeType) :
    grab_val (t :: r) = grab_val [t] := by
  cases t <;> simp [grab_val, current]

/-- Field lookup returns a member of the field list. -/
lemma findDec_mem {α : Type} :
    ∀ (l : List (String × α)) (key : String) (p : String × α),
      findDec l key = some p → p ∈ l := by
  intro l
  induction l with
  | nil => intro key p h; simp [findDec] at h
  | cons q rest ih =>
      intro key p h
      rcases q with ⟨k, d⟩
      by_cases hk : k = key
      · subst hk
        simp only [findDec, if_pos rfl] at h
        injection h with h2
        rw [← h2]
        exact List.mem_cons_self _ _
      · simp only [findDec, if_neg hk] at h
        exact List.mem_cons_of_mem _ (ih key p h)

/-- Every field decoder produced by `decoders` is the decode of a member
field shape. -/
lemma decoders_mem :
    ∀ (fields : List (String × Shape))
      (p : String × (List DeType → DeResult (Val × List DeType))),
      p ∈ decoders fields →
      ∃ k s, (k, s) ∈ fields ∧ p = (k, fun st => decode s st) := by
  intro fields
  induction fields with
  | nil => intro p h; rw [decoders] at h; simp at h
  | cons q rest ih =>
      intro p h
      rcases q with ⟨k, s⟩
      rw [decoders] at h
      rcases List.mem_cons.1 h with h1 | h1
      · exact ⟨k, s, List.mem_cons_self _ _, h1⟩
      · obtain ⟨k2, s2, hmem, rfl⟩ := ih p h1
        exact ⟨k2, s2, List.mem_cons_of_mem _ hmem, rfl⟩

/-- From any position past the first, one run of the element loop inspects
only the top frame and the entry frame `t` below it: two runs over stacks that
differ only below `t` correspond step by step, and on exhaustion both pop
exactly the one frame standing above `t`. -/
lemma next_element_loop_below
    (dec : List DeType → DeResult (Val × List DeType))
    (hdec : ∀ (tt : DeType) (s1 s2 : List DeType),
      RelBelow (tt :: s1) (tt :: s2) (dec (tt :: s1)) (dec (tt :: s2))) :
    ∀ (fuel count p : Nat) (acc : List Val) (X t : DeType)
      (r1 r2 : List DeType),
      RelBelow (t :: r1) (t :: r2)
        (next_element_loop dec count fuel (p + 1) acc (X :: t :: r1))
        (next_element_loop dec count fuel (p + 1) acc (X :: t :: r2)) := by
  intro fuel
  induction fuel with
  | zero =>
      intro count p acc X t r1 r2
      unfold next_element_loop
      by_cases h : p + 1 = count
      · rw [if_pos h, if_pos h,
          if_pos (show count ≠ 0 by omega), if_pos (show count ≠ 0 by omega)]
        simp [RelBelow, pop]
      · rw [if_neg h, if_neg h]
        simp [RelBelow]
  | succ fl ih =>
      intro count p acc X t r1 r2
      unfold next_element_loop
      by_cases h : p + 1 = count
      · rw [if_pos h, if_pos h,
          if_pos (show count ≠ 0 by omega), if_pos (show count ≠ 0 by omega)]
        simp [RelBelow, pop]
      · rw [if_neg h, if_neg h]
        simp only [push_seq]
        cases t with
        | Item key values =>
            have hd := hdec (DeType.Seq values (p + 1))
              (DeType.Item key values :: r1) (DeType.Item key values :: r2)
            cases hh : dec (DeType.Seq values (p + 1) ::
                DeType.Item key values :: r1) with
            | error e =>
                rw [hh] at hd
                simp only [RelBelow] at hd
                simp [hh, hd, RelBelow]
            | ok pr =>
                rcases pr with ⟨v, st2⟩
                rw [hh] at hd
                simp only [RelBelow] at hd
                obtain ⟨rfl, hd2⟩ := hd
                simp only [hh, hd2]
                exact ih count (p + 1) (acc ++ [v]) (DeType.Seq values (p + 1))
                  (DeType.Item key values) r1 r2
        | Struct values ind =>
            have hd := hdec X (DeType.Struct values ind :: r1)
              (DeType.Struct values ind :: r2)
            cases hh : dec (X :: DeType.Struct values ind :: r1) with
            | error e =>
                rw [hh] at hd
                simp only [RelBelow] at hd
                simp [hh, hd, RelBelow]
            | ok pr =>
                rcases pr with ⟨v, st2⟩
                rw [hh] at hd
                simp only [RelBelow] at hd
                obtain ⟨rfl, hd2⟩ := hd
                simp only [hh, hd2]
                exact ih count (p + 1) (acc ++ [v]) X
                  (DeType.Struct values ind) r1 r2
        | Seq items ind =>
            have hd := hdec X (DeType.Seq items ind :: r1)
              (DeType.Seq items ind :: r2)
            cases hh : dec (X :: DeType.Seq items ind :: r1) with
            | error e =>
                rw [hh] at hd
                simp only [RelBelow] at hd
                simp [hh, hd, RelBelow]
            | ok pr =>
                rcases pr with ⟨v, st2⟩
                rw [hh] at hd
                simp only [RelBelow] at hd
                obtain ⟨rfl, hd2⟩ := hd
                simp only [hh, hd2]
                exact ih count (p + 1) (acc ++ [v]) X
                  (DeType.Seq items ind) r1 r2

/-- From any position past the first, one run of the field loop inspects only
the top frame and the entry frame `t` below it; runs over stacks differing
only below `t` correspond, provided every field decoder does. -/
lemma next_key_loop_below
    (fdecs : List (String × (List DeType → DeResult (Val × List DeType))))
    (hdecs : ∀ (name : String)
        (dcf : List DeType → DeResult (Val × List DeType)),
      (name, dcf) ∈ fdecs → ∀ (tt : DeType) (s1 s2 : List DeType),
      RelBelow (tt :: s1) (tt :: s2) (dcf (tt :: s1)) (dcf (tt :: s2))) :
    ∀ (fuel count p : Nat) (acc : List (String × Val)) (X t : DeType)
      (r1 r2 : List DeType),
      RelBelow (t :: r1) (t :: r2)
        (next_key_loop fdecs count fuel (p + 1) acc (X :: t :: r1))
        (next_key_loop fdecs count fuel (p + 1) acc (X :: t :: r2)) := by
  intro fuel
  induction fuel with
  | zero =>
      intro count p acc X t r1 r2
      unfold next_key_loop
      by_cases h : p + 1 = count
      · rw [if_pos h, if_pos h,
          if_pos (show count ≠ 0 by omega), if_pos (show count ≠ 0 by omega)]
        simp [RelBelow, pop]
      · rw [if_neg h, if_neg h]
        simp [RelBelow]
  | succ fl ih =>
      intro count p acc X t r1 r2
      unfold next_key_loop
      by_cases h : p + 1 = count
      · rw [if_pos h, if_pos h,
          if_pos (show count ≠ 0 by omega), if_pos (show count ≠ 0 by omega)]
        simp [RelBelow, pop]
      · rw [if_neg h, if_neg h]
        simp only [push]
        cases t with
        | Struct values ind =>
            cases hv : values[p + 1]? with
            | none => simp [RelBelow, hv]
            | some entry =>
                rcases entry with ⟨key, vs⟩
                simp only [hv]
                simp only [deserialize_identifier]
                cases hf : findDec fdecs key with
                | none =>
                    simp only [hf, deserialize_ignored_any]
                    exact ih count (p + 1) acc (DeType.Item key vs)
                      (DeType.Struct values ind) r1 r2
                | some pr =>
                    rcases pr with ⟨name, dcf⟩
                    simp only [hf]
                    by_cases hdup : (List.map Prod.fst acc).contains name
                    · rw [if_pos hdup, if_pos hdup]
                      simp [RelBelow]
                    · rw [if_neg hdup, if_neg hdup]
                      have hmem := findDec_mem fdecs key (name, dcf) hf
                      have hd := hdecs name dcf hmem (DeType.Item key vs)
                        (DeType.Struct values ind :: r1)
                        (DeType.Struct values ind :: r2)
                      cases hh : dcf (DeType.Item key vs ::
                          DeType.Struct values ind :: r1) with
                      | error e =>
                          rw [hh] at hd
                          simp only [RelBelow] at hd
                          simp [hh, hd, RelBelow]
                      | ok pv =>
                          rcases pv with ⟨v, st2⟩
                          rw [hh] at hd
                          simp only [RelBelow] at hd
                          obtain ⟨rfl, hd2⟩ := hd
                          simp only [hh, hd2]
                          exact ih count (p + 1) (acc ++ [(name, v)])
                            (DeType.Item key vs) (DeType.Struct values ind)
                            r1 r2
        | Item key0 vals0 =>
            cases X with
            | Item key vs =>
                simp only [deserialize_identifier]
                cases hf : findDec fdecs key with
                | none =>
                    simp only [hf, deserialize_ignored_any]
                    exact ih count (p + 1) acc (DeType.Item key vs)
                      (DeType.Item key0 vals0) r1 r2
                | some pr =>
                    rcases pr with ⟨name, dcf⟩
                    simp only [hf]
                    by_cases hdup : (List.map Prod.fst acc).contains name
                    · rw [if_pos hdup, if_pos hdup]
                      simp [RelBelow]
                    · rw [if_neg hdup, if_neg hdup]
                      have hmem := findDec_mem fdecs key (name, dcf) hf
                      have hd := hdecs name dcf hmem (DeType.Item key vs)
                        (DeType.Item key0 vals0 :: r1)
                        (DeType.Item key0 vals0 :: r2)
                      cases hh : dcf (DeType.Item key vs ::
                          DeType.Item key0 vals0 :: r1) with
                      | error e =>
                          rw [hh] at hd
                          simp only [RelBelow] at hd
                          simp [hh, hd, RelBelow]
                      | ok pv =>
                          rcases pv with ⟨v, st2⟩
                          rw [hh] at hd
                          simp only [RelBelow] at hd
                          obtain ⟨rfl, hd2⟩ := hd
                          simp only [hh, hd2]
                          exact ih count (p + 1) (acc ++ [(name, v)])
                            (DeType.Item key vs) (DeType.Item key0 vals0) r1 r2
            | Struct values2 ind2 => simp [deserialize_identifier, RelBelow]
            | Seq items2 ind2 => simp [deserialize_identifier, RelBelow]
        | Seq items0 ind0 =>
            cases X with
            | Item key vs =>
                simp only [deserialize_identifier]
                cases hf : findDec fdecs key with
                | none =>
                    simp only [hf, deserialize_ignored_any]
                    exact ih count (p + 1) acc (DeType.Item key vs)
                      (DeType.Seq items0 ind0) r1 r2
                | some pr =>
                    rcases pr with ⟨name, dcf⟩
                    simp only [hf]
                    by_cases hdup : (List.map Prod.fst acc).contains name
                    · rw [if_pos hdup, if_pos hdup]
                      simp [RelBelow]
                    · rw [if_neg hdup, if_neg hdup]
                      have hmem := findDec_mem fdecs key (name, dcf) hf
                      have hd := hdecs name dcf hmem (DeType.Item key vs)
                        (DeType.Seq items0 ind0 :: r1)
                        (DeType.Seq items0 ind0 :: r2)
                      cases hh : dcf (DeType.Item key vs ::
                          DeType.Seq items0 ind0 :: r1) with
                      | error e =>
                          rw [hh] at hd
                          simp only [RelBelow] at hd
                          simp [hh, hd, RelBelow]
                      | ok pv =>
                          rcases pv with ⟨v, st2⟩
                          rw [hh] at hd
                          simp only [RelBelow] at hd
                          obtain ⟨rfl, hd2⟩ := hd
                          simp only [hh, hd2]
                          exact ih count (p + 1) (acc ++ [(name, v)])
                            (DeType.Item key vs) (DeType.Seq items0 ind0) r1 r2
            | Struct values2 ind2 => simp [deserialize_identifier, RelBelow]
            | Seq items2 ind2 => simp [deserialize_identifier, RelBelow]

/-- The field loop started at position zero on a `Struct` top frame inspects
only that frame and the frames it pushes above it: runs over stacks differing
below the `Struct` frame correspond. -/
lemma next_key_loop_start_below
    (fdecs : List (String × (List DeType → DeResult (Val × List DeType))))
    (hdecs : ∀ (name : String)
        (dcf : List DeType → DeResult (Val × List DeType)),
      (name, dcf) ∈ fdecs → ∀ (tt : DeType) (s1 s2 : List DeType),
      RelBelow (tt :: s1) (tt :: s2) (dcf (tt :: s1)) (dcf (tt :: s2))) :
    ∀ (count fuel : Nat) (values : List (String × List DeConfig)) (ind : Nat)
      (r1 r2 : List DeType),
      RelBelow (DeType.Struct values ind :: r1) (DeType.Struct values ind :: r2)
        (next_key_loop fdecs count fuel 0 [] (DeType.Struct values ind :: r1))
        (next_key_loop fdecs count fuel 0 [] (DeType.Struct values ind :: r2)) := by
  intro count fuel values ind r1 r2
  unfold next_key_loop
  by_cases h : (0 : Nat) = count
  · rw [if_pos h, if_pos h]
    subst h
    simp [RelBelow]
  · rw [if_neg h, if_neg h]
    cases fuel with
    | zero => simp [RelBelow]
    | succ fl =>
        simp only [push]
        cases hv : values[0]? with
        | none => simp [RelBelow, hv]
        | some entry =>
            rcases entry with ⟨key, vs⟩
            simp only [hv]
            simp only [deserialize_identifier]
            cases hf : findDec fdecs key with
            | none =>
                simp only [hf, deserialize_ignored_any]
                exact next_key_loop_below fdecs hdecs fl count 0 []
                  (DeType.Item key vs) (DeType.Struct values ind) r1 r2
            | some pr =>
                rcases pr with ⟨name, dcf⟩
                simp only [hf]
                by_cases hdup : (List.map Prod.fst ([] : List (String × Val))).contains name
                · rw [if_pos hdup, if_pos hdup]
                  simp [RelBelow]
                · rw [if_neg hdup, if_neg hdup]
                  have hmem := findDec_mem fdecs key (name, dcf) hf
                  have hd := hdecs name dcf hmem (DeType.Item key vs)
                    (DeType.Struct values ind :: r1)
                    (DeType.Struct values ind :: r2)
                  cases hh : dcf (DeType.Item key vs ::
                      DeType.Struct values ind :: r1) with
                  | error e =>
                      rw [hh] at hd
                      simp only [RelBelow] at hd
                      simp [hh, hd, RelBelow]
                  | ok pv =>
                      rcases pv with ⟨v, st2⟩
                      rw [hh] at hd
                      simp only [RelBelow] at hd
                      obtain ⟨rfl, hd2⟩ := hd
                      simp only [hh, hd2]
                      exact next_key_loop_below fdecs hdecs fl count 0
                        ([] ++ [(name, v)]) (DeType.Item key vs)
                        (DeType.Struct values ind) r1 r2

/-- Master locality and preservation lemma of the traversal: one decode
request against a nonempty stack inspects only the top frame and the frames it
pushes itself; on success it returns the stack unchanged, and a run against a
stack differing only below the top frame produces the same value or the same
failure.  By strong induction on the size of the requested shape. -/
theorem decode_below_aux :
    ∀ (n : Nat) (sh : Shape), sizeOf sh ≤ n →
      ∀ (t : DeType) (r1 r2 : List DeType),
        RelBelow (t :: r1) (t :: r2) (decode sh (t :: r1))
          (decode sh (t :: r2)) := by
  intro n
  induction n with
  | zero =>
      intro sh hsh
      exfalso
      cases sh <;> simp at hsh
  | succ n ih =>
      intro sh hsh t r1 r2
      cases sh with
      | sbool =>
          simp only [decode]
          have hg : grab_bool (t :: r2) = grab_bool (t :: r1) := by
            simp only [grab_bool]
            rw [grab_val_cons t r2, grab_val_cons t r1]
          rw [hg]
          cases hh : grab_bool (t :: r1) with
          | error e => simp [RelBelow, hh]
          | ok b => simp [RelBelow, hh]
      | sstr =>
          simp only [decode]
          have hg : grab_string (t :: r2) = grab_string (t :: r1) := by
            simp only [grab_string]
            rw [grab_val_cons t r2, grab_val_cons t r1]
          rw [hg]
          cases hh : grab_string (t :: r1) with
          | error e => simp [RelBelow, hh]
          | ok s => simp [RelBelow, hh]
      | snum =>
          simp only [decode]
          have hg : grab_number (t :: r2) = grab_number (t :: r1) := by
            simp only [grab_number]
            rw [grab_val_cons t r2, grab_val_cons t r1]
          rw [hg]
          cases hh : grab_number (t :: r1) with
          | error e => simp [RelBelow, hh]
          | ok x => simp [RelBelow, hh]
      | schar =>
          simp only [decode, deserialize_char]
          have hg : grab_string (t :: r2) = grab_string (t :: r1) := by
            simp only [grab_string]
            rw [grab_val_cons t r2, grab_val_cons t r1]
          rw [hg]
          cases hh : grab_string (t :: r1) with
          | error e => simp [RelBelow, hh]
          | ok x =>
              by_cases hb : x.utf8ByteSize ≠ 1
              · simp [RelBelow, hb]
              · cases hdata : x.data with
                | nil => simp [RelBelow, hb, hdata]
                | cons c cs => simp [RelBelow, hb, hdata]
      | sopt s =>
          have hs : sizeOf s ≤ n := by
            simp at hsh
            omega
          simp only [decode]
          have hd := ih s hs t r1 r2
          cases hh : decode s (t :: r1) with
          | error e =>
              rw [hh] at hd
              simp only [RelBelow] at hd
              simp [RelBelow, hh, hd]
          | ok pv =>
              rcases pv with ⟨v, st2⟩
              rw [hh] at hd
              simp only [RelBelow] at hd
              obtain ⟨rfl, hd2⟩ := hd
              simp [RelBelow, hh, hd2]
      | sseq s =>
          have hs : sizeOf s ≤ n := by
            simp at hsh
            omega
          have hdec : ∀ (tt : DeType) (s1 s2 : List DeType),
              RelBelow (tt :: s1) (tt :: s2)
                (decode s (tt :: s1)) (decode s (tt :: s2)) :=
            fun tt s1 s2 => ih s hs tt s1 s2
          cases t with
          | Item key values =>
              cases values with
              | nil =>
                  simp only [decode, current, List.length_nil]
                  unfold next_element_loop
                  simp [RelBelow]
              | cons w wt =>
                  simp only [decode, current, List.length_cons]
                  unfold next_element_loop
                  rw [if_neg (by omega : ¬(0 : Nat) = wt.length + 1),
                    if_neg (by omega : ¬(0 : Nat) = wt.length + 1)]
                  simp only [push_seq]
                  have hd := hdec (DeType.Seq (w :: wt) 0)
                    (DeType.Item key (w :: wt) :: r1)
                    (DeType.Item key (w :: wt) :: r2)
                  cases hh : decode s (DeType.Seq (w :: wt) 0 ::
                      DeType.Item key (w :: wt) :: r1) with
                  | error e =>
                      rw [hh] at hd
                      simp only [RelBelow] at hd
                      simp [RelBelow, hh, hd]
                  | ok pv =>
                      rcases pv with ⟨v, st2⟩
                      rw [hh] at hd
                      simp only [RelBelow] at hd
                      obtain ⟨rfl, hd2⟩ := hd
                      simp only [hh, hd2]
                      have hloop := next_element_loop_below
                        (fun st2 => decode s st2) hdec wt.length
                        (wt.length + 1) 0 ([] ++ [v]) (DeType.Seq (w :: wt) 0)
                        (DeType.Item key (w :: wt)) r1 r2
                      simp only [List.nil_append, Nat.zero_add] at hloop
                      cases hl : next_element_loop (fun st2 => decode s st2)
                          (wt.length + 1) wt.length 1 [v]
                          (DeType.Seq (w :: wt) 0 ::
                            DeType.Item key (w :: wt) :: r1) with
                      | error e =>
                          rw [hl] at hloop
                          simp only [RelBelow] at hloop
                          simp [RelBelow, hl, hloop]
                      | ok pl =>
                          rcases pl with ⟨vs2, st3⟩
                          rw [hl] at hloop
                          simp only [RelBelow] at hloop
                          obtain ⟨rfl, hloop2⟩ := hloop
                          simp [RelBelow, hl, hloop2]
          | Struct values ind => simp [decode, current, RelBelow]
          | Seq items ind => simp [decode, current, RelBelow]
      | sstruct fields =>
          have hflds : sizeOf fields ≤ n := by
            simp at hsh
            omega
          have hdecs : ∀ (name : String)
              (dcf : List DeType → DeResult (Val × List DeType)),
              (name, dcf) ∈ decoders fields →
              ∀ (tt : DeType) (s1 s2 : List DeType),
              RelBelow (tt :: s1) (tt :: s2) (dcf (tt :: s1))
                (dcf (tt :: s2)) := by
            intro name dcf hmem tt s1 s2
            obtain ⟨k, s, hks, heq⟩ := decoders_mem fields (name, dcf) hmem
            have hs : sizeOf s ≤ n := by
              have h1 := List.sizeOf_lt_of_mem hks
              have h2 : sizeOf (k, s) = 1 + sizeOf k + sizeOf s := rfl
              omega
            have heq2 : dcf = fun st => decode s st := congrArg Prod.snd heq
            rw [heq2]
            exact ih s hs tt s1 s2
          cases t with
          | Struct values ind =>
              simp only [decode, current]
              have hst := next_key_loop_start_below (decoders fields) hdecs
                values.length values.length values ind r1 r2
              cases hh : next_key_loop (decoders fields) values.length
                  values.length 0 [] (DeType.Struct values ind :: r1) with
              | error e =>
                  rw [hh] at hst
                  simp only [RelBelow] at hst
                  simp [RelBelow, hh, hst]
              | ok pr =>
                  rcases pr with ⟨acc, st2⟩
                  rw [hh] at hst
                  simp only [RelBelow] at hst
                  obtain ⟨rfl, hst2⟩ := hst
                  simp only [hh, hst2]
                  cases hA : assemble acc fields with
                  | error e => simp [RelBelow, hA]
                  | ok fvs => simp [RelBelow, hA]
          | Seq values ind =>
              simp only [decode, current]
              cases hv : values[ind]? with
              | none => simp [RelBelow, hv]
              | some dc =>
                  cases dc with
                  | Object obj =>
                      simp only [hv]
                      have hst := next_key_loop_start_below (decoders fields)
                        hdecs obj.length obj.length obj 0
                        (DeType.Seq values ind :: r1)
                        (DeType.Seq values ind :: r2)
                      cases hh : next_key_loop (decoders fields) obj.length
                          obj.length 0 [] (DeType.Struct obj 0 ::
                            DeType.Seq values ind :: r1) with
                      | error e =>
                          rw [hh] at hst
                          simp only [RelBelow] at hst
                          simp [RelBelow, hh, hst]
                      | ok pr =>
                          rcases pr with ⟨acc, st2⟩
                          rw [hh] at hst
                          simp only [RelBelow] at hst
                          obtain ⟨rfl, hst2⟩ := hst
                          simp only [hh, hst2]
                          cases hA : assemble acc fields with
                          | error e => simp [RelBelow, hA]
                          | ok fvs => simp [RelBelow, hA, pop]
                  | String sx => simp [RelBelow, hv]
                  | Number nx => simp [RelBelow, hv]
                  | Boolean bx => simp [RelBelow, hv]
          | Item key values =>
              simp only [decode, current]
              unfold next_key_loop
              simp only [if_pos rfl]
              cases hA : assemble [] fields with
              | error e => simp [RelBelow, hA]
              | ok fvs => simp [RelBelow, hA]
      | signored => simp [decode, deserialize_ignored_any, RelBelow]
      | smap => simp [decode, deserialize_any, RelBelow]
      | senum => simp [decode, deserialize_any, RelBelow]
      | stuple => simp [decode, deserialize_any, RelBelow]
      | sbytes => simp [decode, deserialize_any, RelBelow]
      | sunit => simp [decode, deserialize_any, RelBelow]

/-- Locality and preservation of one decode request, at the exact shape
size. -/
theorem decode_below (sh : Shape) (t : DeType) (r1 r2 : List DeType) :
    RelBelow (t :: r1) (t :: r2) (decode sh (t :: r1)) (decode sh (t :: r2)) :=
  decode_below_aux (sizeOf sh) sh (Nat.le_refl _) t r1 r2

/-- A successful decode returns the frame stack exactly as it found it. -/
theorem decode_preserves (sh : Shape) (t : DeType) (r : List DeType) (v : Val)
    (st' : List DeType) (h : decode sh (t :: r) = .ok (v, st')) :
    st' = t :: r := by
  have hb := decode_below sh t r r
  rw [h] at hb
  simp only [RelBelow] at hb
  exact hb.1

/-- Concrete evaluation helper: decoding a one-field boolean struct from a
one-item document. -/
lemma eval_simple_bool :
    from_collectd (.sstruct [("k", .sbool)])
        [ConfigItem.mk "k" [ConfigValue.Boolean true] []] =
      .ok (.vstruct [("k", .vb true)],
           [DeType.Struct [("k", [DeConfig.Boolean true])] 0]) := by
  simp [from_collectd, from_config, from_config_acc, upsert, decode,
    next_key_loop, decoders, push, deserialize_identifier, findDec,
    grab_bool, grab_val, current, assemble, pop, configValueToDe]

/-- Claim C3: the stack of a top-level decode is seeded with exactly one root
`Struct` frame; a push happens only at field or element position 0 (positions
past 0 replace the top frame in place); a count-zero accessor never pops; and
a successful decode ends with the stack exactly the one seeded root frame
again, every pushed frame having been popped exactly once on exhaustion of its
accessor. -/
theorem claim3_frame_stack_discipline :
    (∀ (sh : Shape) (items : List ConfigItem),
      from_collectd sh items =
        decode sh [DeType.Struct (from_config items) 0]) ∧
    (∀ (values : List (String × List DeConfig)) (ind : Nat)
        (rest : List DeType),
      push 0 (DeType.Struct values ind :: rest) =
        match values[0]? with
        | some (key, vs) =>
            .ok (DeType.Item key vs :: DeType.Struct values ind :: rest)
        | none => .error .crash) ∧
    (∀ (p : Nat) (top : DeType) (values : List (String × List DeConfig))
        (ind : Nat) (rest : List DeType),
      push (p + 1) (top :: DeType.Struct values ind :: rest) =
        match values[p + 1]? with
        | some (key, vs) =>
            .ok (DeType.Item key vs :: DeType.Struct values ind :: rest)
        | none => .error .crash) ∧
    (∀ (fdecs : List (String × (List DeType → DeResult (Val × List DeType))))
        (fuel : Nat) (acc : List (String × Val)) (st : List DeType),
      next_key_loop fdecs 0 fuel 0 acc st = .ok (acc, st)) ∧
    (∀ (dec : List DeType → DeResult (Val × List DeType)) (fuel : Nat)
        (acc : List Val) (st : List DeType),
      next_element_loop dec 0 fuel 0 acc st = .ok (acc, st)) ∧
    (∀ (sh : Shape) (items : List ConfigItem) (v : Val) (st' : List DeType),
      from_collectd sh items = .ok (v, st') →
        st' = [DeType.Struct (from_config items) 0]) := by
  refine ⟨fun _ _ => rfl, ?_, ?_, ?_, ?_, ?_⟩
  · intro values ind rest
    cases hv : values[0]? with
    | none => simp [push, hv]
    | some entry => rcases entry with ⟨key, vs⟩; simp [push, hv]
  · intro p top values ind rest
    cases hv : values[p + 1]? with
    | none => simp [push, hv]
    | some entry => rcases entry with ⟨key, vs⟩; simp [push, hv]
  · intro fdecs fuel acc st
    unfold next_key_loop
    simp
  · intro dec fuel acc st
    unfold next_element_loop
    simp
  · intro sh items v st' h
    exact decode_preserves sh (DeType.Struct (from_config items) 0) [] v st' h

/-- Witness for claim C3 at a concrete decode: the successful one-field
boolean decode ends with the stack being exactly the seeded root frame. -/
theorem claim3_frame_stack_discipline_witness :
    ([DeType.Struct [("k", [DeConfig.Boolean true])] 0] : List DeType) =
      [DeType.Struct
        (from_config [ConfigItem.mk "k" [ConfigValue.Boolean true] []]) 0] :=
  claim3_frame_stack_discipline.2.2.2.2.2 (.sstruct [("k", .sbool)])
    [ConfigItem.mk "k" [ConfigValue.Boolean true] []]
    (.vstruct [("k", .vb true)])
    [DeType.Struct [("k", [DeConfig.Boolean true])] 0]
    eval_simple_bool

/-- Inserting a key that does not occur in a prefix of the scope leaves the
prefix untouched. -/
lemma upsert_append_of_not_mem (P : List (String × List DeConfig))
    (key : String) (vs : List DeConfig) (h : key ∉ P.map Prod.fst) :
    ∀ (Q : List (String × List DeConfig)),
      upsert (P ++ Q) key vs = P ++ upsert Q key vs := by
  induction P with
  | nil => intro Q; simp
  | cons e rest ih =>
      intro Q
      rcases e with ⟨k, xs⟩
      have hk : ¬k = key := by
        intro hkk
        exact h (by simp [hkk])
      simp only [List.cons_append, upsert, if_neg hk, List.append_eq]
      rw [ih (by
        intro hx
        exact h (by rw [List.map_cons]; exact List.mem_cons_of_mem _ hx)) Q]

/-- Grouping items whose keys avoid a scope prefix leaves the prefix
untouched. -/
lemma from_config_acc_prefix :
    ∀ (items : List ConfigItem) (P Q : List (String × List DeConfig)),
      (∀ i ∈ items, i.key ∉ P.map Prod.fst) →
      from_config_acc (P ++ Q) items = P ++ from_config_acc Q items := by
  intro items
  induction items with
  | nil => intro P Q h; simp [from_config_acc]
  | cons item rest ih =>
      intro P Q h
      rcases item with ⟨k, vs, ch⟩
      have hk : k ∉ P.map Prod.fst := h _ (List.mem_cons_self _ _)
      have hrest : ∀ i ∈ rest, i.key ∉ P.map Prod.fst :=
        fun i hi => h i (List.mem_cons_of_mem _ hi)
      cases ch with
      | nil =>
          rw [from_config_acc, from_config_acc,
            upsert_append_of_not_mem P k _ hk]
          exact ih P _ hrest
      | cons c cs =>
          rw [from_config_acc, from_config_acc,
            upsert_append_of_not_mem P k _ hk]
          exact ih P _ hrest

/-- A key present after an insertion was present before or is the inserted
key. -/
lemma mem_keys_upsert :
    ∀ (acc : List (String × List DeConfig)) (key : String)
      (vs : List DeConfig) (x : String),
      x ∈ (upsert acc key vs).map Prod.fst →
      x ∈ acc.map Prod.fst ∨ x = key := by
  intro acc
  induction acc with
  | nil =>
      intro key vs x h
      simp [upsert] at h
      exact Or.inr h
  | cons e rest ih =>
      intro key vs x h
      rcases e with ⟨k, xs⟩
      by_cases hk : k = key
      · simp [upsert, hk] at h
        rcases h with h | h
        · exact Or.inl (by simp [h, hk])
        · obtain ⟨y, hy⟩ := h
          exact Or.inl (by
            rw [List.map_cons]
            refine List.mem_cons_of_mem _ ?_
            exact List.mem_map.2 ⟨(x, y), hy, rfl⟩)
      · simp only [upsert, if_neg hk, List.map_cons, List.mem_cons] at h
        rcases h with h | h
        · exact Or.inl (by simp [h])
        · rcases ih key vs x h with h2 | h2
          · exact Or.inl (by
              rw [List.map_cons]
              exact List.mem_cons_of_mem _ h2)
          · exact Or.inr h2

/-- A key present in a grouped scope was present in the accumulator or is the
key of one of the grouped items. -/
lemma mem_keys_from_config_acc :
    ∀ (items : List ConfigItem) (acc : List (String × List DeConfig))
      (x : String),
      x ∈ (from_config_acc acc items).map Prod.fst →
      x ∈ acc.map Prod.fst ∨ x ∈ items.map ConfigItem.key := by
  intro items
  induction items with
  | nil =>
      intro acc x h
      rw [from_config_acc] at h
      exact Or.inl h
  | cons item rest ih =>
      intro acc x h
      rcases item with ⟨k, vs, ch⟩
      have step : ∀ (ws : List DeConfig),
          x ∈ (from_config_acc (upsert acc k ws) rest).map Prod.fst →
          x ∈ acc.map Prod.fst ∨ x ∈ (ConfigItem.mk k vs ch :: rest).map ConfigItem.key := by
        intro ws hx
        rcases ih (upsert acc k ws) x hx with h2 | h2
        · rcases mem_keys_upsert acc k ws x h2 with h3 | h3
          · exact Or.inl h3
          · exact Or.inr (by simp [h3, ConfigItem.key])
        · exact Or.inr (by
            rw [List.map_cons]
            exact List.mem_cons_of_mem _ h2)
      cases ch with
      | nil =>
          rw [from_config_acc] at h
          exact step _ h
      | cons c cs =>
          rw [from_config_acc] at h
          exact step _ h

/-- A key that names no target field is not found among the generated field
decoders. -/
lemma findDec_decoders_none :
    ∀ (fields : List (String × Shape)) (k : String),
      k ∉ fields.map Prod.fst → findDec (decoders fields) k = none := by
  intro fields
  induction fields with
  | nil => intro k _; rw [decoders]; rfl
  | cons f rest ih =>
      intro k hk
      rcases f with ⟨k1, s1⟩
      rw [decoders]
      have h1 : ¬k1 = k := by
        intro he
        exact hk (by simp [he])
      simp only [findDec, if_neg h1]
      exact ih k (by
        intro hx
        exact hk (by rw [List.map_cons]; exact List.mem_cons_of_mem _ hx))

/-- All decoders generated for a field list satisfy the locality relation. -/
lemma decoders_all_below (fields : List (String × Shape)) :
    ∀ (name : String) (dcf : List DeType → DeResult (Val × List DeType)),
      (name, dcf) ∈ decoders fields →
      ∀ (tt : DeType) (s1 s2 : List DeType),
        RelBelow (tt :: s1) (tt :: s2) (dcf (tt :: s1)) (dcf (tt :: s2)) := by
  intro name dcf hmem tt s1 s2
  obtain ⟨k, s, _, heq⟩ := decoders_mem fields (name, dcf) hmem
  have heq2 : dcf = fun st => decode s st := congrArg Prod.snd heq
  rw [heq2]
  exact decode_below s tt s1 s2

/-- Field-loop iterations over scope entries none of which name a target
field only perform ignored-any requests; they succeed, keep the accumulator,
and the exhaustion pop restores the stack below the iteration frame. -/
lemma next_key_loop_unknown_go
    (fdecs : List (String × (List DeType → DeResult (Val × List DeType))))
    (scope : List (String × List DeConfig)) (ind : Nat) (r : List DeType) :
    ∀ (fuel q : Nat) (acc : List (String × Val)) (X : DeType) (count : Nat),
      count = scope.length →
      q + 1 + fuel = scope.length →
      (∀ (j : Nat) (entry : String × List DeConfig), q + 1 ≤ j →
        scope[j]? = some entry → findDec fdecs entry.1 = none) →
      next_key_loop fdecs count fuel (q + 1) acc
          (X :: DeType.Struct scope ind :: r) =
        .ok (acc, DeType.Struct scope ind :: r) := by
  intro fuel
  induction fuel with
  | zero =>
      intro q acc X count hcount hlen hunk
      subst hcount
      unfold next_key_loop
      rw [if_pos (by omega : q + 1 = scope.length),
        if_pos (by omega : scope.length ≠ 0)]
      simp [pop]
  | succ fl ih =>
      intro q acc X count hcount hlen hunk
      subst hcount
      have hlt : q + 1 < scope.length := by omega
      unfold next_key_loop
      rw [if_neg (by omega : ¬q + 1 = scope.length)]
      obtain ⟨entry, hv⟩ : ∃ e, scope[q + 1]? = some e :=
        ⟨_, List.getElem?_eq_getElem hlt⟩
      rcases entry with ⟨key, vs⟩
      simp only [push, hv]
      simp only [deserialize_identifier]
      have hf : findDec fdecs key = none :=
        hunk (q + 1) (key, vs) (by omega) hv
      simp only [hf, deserialize_ignored_any]
      exact ih (q + 1) acc (DeType.Item key vs) scope.length rfl (by omega)
        (fun j e hj he => hunk j e (by omega) he)

/-- A field loop started at position zero over a scope with only unknown keys
succeeds with an empty accumulator and restores the stack. -/
lemma next_key_loop_unknown_start
    (fdecs : List (String × (List DeType → DeResult (Val × List DeType))))
    (scope : List (String × List DeConfig)) (ind : Nat) (r : List DeType)
    (count fuel : Nat) (hcount : count = scope.length)
    (hfuel : fuel = scope.length)
    (hunk : ∀ (j : Nat) (entry : String × List DeConfig),
      scope[j]? = some entry → findDec fdecs entry.1 = none) :
    next_key_loop fdecs count fuel 0 [] (DeType.Struct scope ind :: r) =
      .ok ([], DeType.Struct scope ind :: r) := by
  subst hcount
  subst hfuel
  cases scope with
  | nil =>
      unfold next_key_loop
      simp
  | cons e0 srest =>
      rcases e0 with ⟨key, vs⟩
      unfold next_key_loop
      rw [if_neg (by simp : ¬(0 : Nat) = ((key, vs) :: srest).length)]
      simp only [List.length_cons]
      simp only [push, List.getElem?_cons_zero]
      simp only [deserialize_identifier]
      have hf : findDec fdecs key = none := hunk 0 (key, vs) (by simp)
      simp only [hf, deserialize_ignored_any]
      exact next_key_loop_unknown_go fdecs ((key, vs) :: srest) ind r
        srest.length 0 [] (DeType.Item key vs) (srest.length + 1)
        (by simp) (by simp only [List.length_cons]; omega)
        (fun j e _ he => hunk j e he)

/-- Lockstep comparison of the field loop over a scope and over the same scope
extended by unknown-key entries: from any position past the first, a
successful run over the plain scope forces the extended run to succeed with
the same accumulated fields. -/
lemma next_key_loop_compare (fields : List (String × Shape))
    (scope1 E : List (String × List DeConfig))
    (hE : ∀ (j : Nat) (entry : String × List DeConfig), E[j]? = some entry →
      findDec (decoders fields) entry.1 = none) :
    ∀ (fuel1 q : Nat) (acc accR : List (String × Val)) (X : DeType)
      (count1 count2 fuel2 : Nat),
      q + 1 + fuel1 = scope1.length →
      count1 = scope1.length → count2 = count1 + E.length →
      fuel2 = fuel1 + E.length →
      next_key_loop (decoders fields) count1 fuel1 (q + 1) acc
          (X :: DeType.Struct scope1 0 :: []) =
        .ok (accR, [DeType.Struct scope1 0]) →
      next_key_loop (decoders fields) count2 fuel2 (q + 1) acc
          (X :: DeType.Struct (scope1 ++ E) 0 :: []) =
        .ok (accR, [DeType.Struct (scope1 ++ E) 0]) := by
  intro fuel1
  induction fuel1 with
  | zero =>
      intro q acc accR X count1 count2 fuel2 hlen hc1 hc2 hf2 h1
      subst hc1; subst hc2; subst hf2
      unfold next_key_loop at h1
      rw [if_pos (by omega : q + 1 = scope1.length),
        if_pos (by omega : scope1.length ≠ 0)] at h1
      simp only [pop, List.tail_cons, Except.ok.injEq, Prod.mk.injEq] at h1
      obtain ⟨rfl, _⟩ := h1
      rw [Nat.zero_add]
      exact next_key_loop_unknown_go (decoders fields) (scope1 ++ E) 0 []
        E.length q acc X (scope1.length + E.length)
        (by simp only [List.length_append])
        (by simp only [List.length_append]; omega)
        (fun j e hj he => by
          apply hE (j - scope1.length)
          rw [← he, List.getElem?_append_right (by omega : scope1.length ≤ j)])
  | succ fl ih =>
      intro q acc accR X count1 count2 fuel2 hlen hc1 hc2 hf2 h1
      subst hc1; subst hc2; subst hf2
      have hlt : q + 1 < scope1.length := by omega
      obtain ⟨entry, hv⟩ : ∃ e, scope1[q + 1]? = some e :=
        ⟨_, List.getElem?_eq_getElem hlt⟩
      rcases entry with ⟨key, vs⟩
      have hv2 : (scope1 ++ E)[q + 1]? = some (key, vs) := by
        rw [List.getElem?_append_left hlt]
        exact hv
      unfold next_key_loop at h1
      rw [if_neg (by omega : ¬q + 1 = scope1.length)] at h1
      simp only [push, hv] at h1
      simp only [deserialize_identifier] at h1
      have hstep : fl + 1 + E.length = (fl + E.length) + 1 := by omega
      rw [hstep]
      unfold next_key_loop
      rw [if_neg (by omega : ¬q + 1 = scope1.length + E.length)]
      simp only [push, hv2]
      simp only [deserialize_identifier]
      cases hf : findDec (decoders fields) key with
      | none =>
          simp only [hf, deserialize_ignored_any] at h1 ⊢
          exact ih (q + 1) acc accR (DeType.Item key vs) scope1.length
            (scope1.length + E.length) (fl + E.length)
            (by omega) rfl rfl rfl h1
      | some pr =>
          rcases pr with ⟨name, dcf⟩
          simp only [hf] at h1 ⊢
          by_cases hdup : (List.map Prod.fst acc).contains name
          · rw [if_pos hdup] at h1
            simp at h1
          · rw [if_neg hdup] at h1
            rw [if_neg hdup]
            cases hc : dcf (DeType.Item key vs :: DeType.Struct scope1 0 :: []) with
            | error e =>
                simp only [hc] at h1
                simp at h1
            | ok pv =>
                rcases pv with ⟨v, st2⟩
                have hrel := decoders_all_below fields name dcf
                  (findDec_mem (decoders fields) key (name, dcf) hf)
                  (DeType.Item key vs) [DeType.Struct scope1 0]
                  [DeType.Struct (scope1 ++ E) 0]
                rw [hc] at hrel
                simp only [RelBelow] at hrel
                obtain ⟨hst2, hrel2⟩ := hrel
                subst hst2
                simp only [hc] at h1
                simp only [hrel2]
                exact ih (q + 1) (acc ++ [(name, v)]) accR (DeType.Item key vs)
                  scope1.length (scope1.length + E.length) (fl + E.length)
                  (by omega) rfl rfl rfl h1

/-- Grouping a concatenated document is grouping the first part and folding
the second into the result. -/
lemma from_config_acc_append :
    ∀ (xs ys : List ConfigItem) (acc : List (String × List DeConfig)),
      from_config_acc acc (xs ++ ys) =
        from_config_acc (from_config_acc acc xs) ys := by
  intro xs
  induction xs with
  | nil =>
      intro ys acc
      simp only [List.nil_append]
      rw [from_config_acc]
  | cons item rest ih =>
      intro ys acc
      rcases item with ⟨k, vs, ch⟩
      cases ch with
      | nil =>
          simp only [List.cons_append]
          rw [from_config_acc, from_config_acc]
          exact ih ys _
      | cons c cs =>
          simp only [List.cons_append]
          rw [from_config_acc, from_config_acc]
          exact ih ys _

/-- Claim C8: the ignored-any request always succeeds and leaves the frame
stack unchanged (it consumes nothing); consequently, appending items whose
keys name no target field (and collide with no existing document key) to a
successfully decoded document still decodes successfully, to the same
value. -/
theorem claim8_ignored_any_and_unknown_keys :
    (∀ st : List DeType, deserialize_ignored_any st = .ok (.vignored, st)) ∧
    (∀ (fields : List (String × Shape)) (doc extra : List ConfigItem)
        (v : Val) (st' : List DeType),
      (∀ i ∈ extra, i.key ∉ fields.map Prod.fst) →
      (∀ i ∈ extra, ∀ j ∈ doc, i.key ≠ j.key) →
      from_collectd (.sstruct fields) doc = .ok (v, st') →
      from_collectd (.sstruct fields) (doc ++ extra) =
        .ok (v, [DeType.Struct (from_config (doc ++ extra)) 0])) := by
  constructor
  · intro st
    rfl
  intro fields doc extra v st' hUnkF hUnkD h3
  have hkeys1 : ∀ i ∈ extra, i.key ∉ (from_config doc).map Prod.fst := by
    intro i hi hmem
    rcases mem_keys_from_config_acc doc [] i.key hmem with h | h
    · simp at h
    · obtain ⟨j, hj, hkey⟩ := List.mem_map.1 h
      exact hUnkD i hi j hj hkey.symm
  have hscope : from_config (doc ++ extra) =
      from_config doc ++ from_config extra := by
    rw [from_config, from_config_acc_append doc extra []]
    have h2 := from_config_acc_prefix extra (from_config doc) [] hkeys1
    simpa using h2
  have hEunk : ∀ (j : Nat) (entry : String × List DeConfig),
      (from_config extra)[j]? = some entry →
      findDec (decoders fields) entry.1 = none := by
    intro j entry hj
    apply findDec_decoders_none
    intro hmem
    have hin : entry ∈ from_config extra := List.getElem?_mem hj
    have hkmem : entry.1 ∈ (from_config extra).map Prod.fst :=
      List.mem_map_of_mem _ hin
    rcases mem_keys_from_config_acc extra [] entry.1 hkmem with h | h
    · simp at h
    · obtain ⟨i, hi, hkey⟩ := List.mem_map.1 h
      exact hUnkF i hi (by rw [hkey]; exact hmem)
  simp only [from_collectd] at h3
  simp only [from_collectd]
  rw [hscope]
  generalize hg1 : from_config doc = scope1 at h3 hscope
  generalize hg2 : from_config extra = E at hscope hEunk
  simp only [decode, current] at h3
  simp only [decode, current]
  cases scope1 with
  | nil =>
      simp only [List.length_nil] at h3
      have hl0 : next_key_loop (decoders fields) 0 0 0 []
          [DeType.Struct [] 0] = .ok ([], [DeType.Struct [] 0]) := by
        unfold next_key_loop
        simp
      rw [hl0] at h3
      cases hA : assemble [] fields with
      | error e =>
          simp only [hA] at h3
          simp at h3
      | ok fvs =>
          simp only [hA] at h3
          simp only [Except.ok.injEq, Prod.mk.injEq] at h3
          obtain ⟨hv2, _⟩ := h3
          simp only [List.nil_append]
          rw [next_key_loop_unknown_start (decoders fields) E 0 []
            E.length E.length rfl rfl (fun j e he => hEunk j e he)]
          simp [hA, hv2]
  | cons e0 s1t =>
      rcases e0 with ⟨key0, vs0⟩
      simp only [List.length_cons] at h3
      unfold next_key_loop at h3
      rw [if_neg (by omega : ¬(0 : Nat) = s1t.length + 1)] at h3
      simp only [push, List.getElem?_cons_zero] at h3
      simp only [deserialize_identifier] at h3
      simp only [List.cons_append, List.length_cons]
      unfold next_key_loop
      rw [if_neg (by omega : ¬(0 : Nat) = (s1t ++ E).length + 1)]
      simp only [push, List.getElem?_cons_zero]
      simp only [deserialize_identifier]
      cases hf : findDec (decoders fields) key0 with
      | none =>
          simp only [hf, deserialize_ignored_any] at h3 ⊢
          cases hL : next_key_loop (decoders fields) (s1t.length + 1)
              s1t.length 1 []
              (DeType.Item key0 vs0 ::
                DeType.Struct ((key0, vs0) :: s1t) 0 :: []) with
          | error e =>
              simp only [hL] at h3
              simp at h3
          | ok pr =>
              rcases pr with ⟨accR, stR⟩
              have hpres := next_key_loop_below (decoders fields)
                (decoders_all_below fields) s1t.length (s1t.length + 1) 0 []
                (DeType.Item key0 vs0) (DeType.Struct ((key0, vs0) :: s1t) 0)
                [] []
              rw [hL] at hpres
              simp only [RelBelow] at hpres
              obtain ⟨hstR, _⟩ := hpres
              subst hstR
              simp only [hL] at h3
              cases hA : assemble accR fields with
              | error e =>
                  simp only [hA] at h3
                  simp at h3
              | ok fvs =>
                  simp only [hA] at h3
                  simp only [Except.ok.injEq, Prod.mk.injEq] at h3
                  obtain ⟨hv2, _⟩ := h3
                  have hcmp := next_key_loop_compare fields
                    ((key0, vs0) :: s1t) E hEunk s1t.length 0 [] accR
                    (DeType.Item key0 vs0) (s1t.length + 1)
                    ((s1t ++ E).length + 1) ((s1t ++ E).length)
                    (by simp only [List.length_cons]; omega)
                    (by simp only [List.length_cons])
                    (by simp only [List.length_cons, List.length_append]; omega)
                    (by simp only [List.length_append])
                    hL
                  simp only [List.cons_append] at hcmp
                  rw [hcmp]
                  simp [hA, hv2]
      | some pr =>
          rcases pr with ⟨name, dcf⟩
          simp only [hf] at h3 ⊢
          rw [if_neg (by simp)] at h3
          rw [if_neg (by simp)]
          cases hc : dcf (DeType.Item key0 vs0 ::
              DeType.Struct ((key0, vs0) :: s1t) 0 :: []) with
          | error e =>
              simp only [hc] at h3
              simp at h3
          | ok pv =>
              rcases pv with ⟨v0, st2⟩
              have hrel := decoders_all_below fields name dcf
                (findDec_mem (decoders fields) key0 (name, dcf) hf)
                (DeType.Item key0 vs0)
                [DeType.Struct ((key0, vs0) :: s1t) 0]
                [DeType.Struct (((key0, vs0) :: s1t) ++ E) 0]
              rw [hc] at hrel
              simp only [RelBelow] at hrel
              obtain ⟨hst2, hrel2⟩ := hrel
              subst hst2
              simp only [hc, List.nil_append] at h3
              simp only [List.cons_append] at hrel2
              simp only [hrel2, List.nil_append]
              cases hL : next_key_loop (decoders fields) (s1t.length + 1)
                  s1t.length 1 [(name, v0)]
                  (DeType.Item key0 vs0 ::
                    DeType.Struct ((key0, vs0) :: s1t) 0 :: []) with
              | error e =>
                  simp only [hL] at h3
                  simp at h3
              | ok pr2 =>
                  rcases pr2 with ⟨accR, stR⟩
                  have hpres := next_key_loop_below (decoders fields)
                    (decoders_all_below fields) s1t.length (s1t.length + 1) 0
                    [(name, v0)] (DeType.Item key0 vs0)
                    (DeType.Struct ((key0, vs0) :: s1t) 0) [] []
                  rw [hL] at hpres
                  simp only [RelBelow] at hpres
                  obtain ⟨hstR, _⟩ := hpres
                  subst hstR
                  simp only [hL] at h3
                  cases hA : assemble accR fields with
                  | error e =>
                      simp only [hA] at h3
                      simp at h3
                  | ok fvs =>
                      simp only [hA] at h3
                      simp only [Except.ok.injEq, Prod.mk.injEq] at h3
                      obtain ⟨hv2, _⟩ := h3
                      have hcmp := next_key_loop_compare fields
                        ((key0, vs0) :: s1t) E hEunk s1t.length 0 [(name, v0)]
                        accR (DeType.Item key0 vs0) (s1t.length + 1)
                        ((s1t ++ E).length + 1) ((s1t ++ E).length)
                        (by simp only [List.length_cons]; omega)
                        (by simp only [List.length_cons])
                        (by
                          simp only [List.length_cons, List.length_append]
                          omega)
                        (by simp only [List.length_append])
                        hL
                      simp only [List.cons_append] at hcmp
                      rw [hcmp]
                      simp [hA, hv2]

/-- Witness for claim C8 at a concrete decode: appending an item with the
unknown key "b" to a document that decodes a one-field boolean struct leaves
the decode successful with the same value. -/
theorem claim8_ignored_any_and_unknown_keys_witness :
    from_collectd (.sstruct [("k", Shape.sbool)])
        ([ConfigItem.mk "k" [ConfigValue.Boolean true] []] ++
          [ConfigItem.mk "b" [ConfigValue.String "x"] []]) =
      .ok (.vstruct [("k", .vb true)],
        [DeType.Struct
          (from_config ([ConfigItem.mk "k" [ConfigValue.Boolean true] []] ++
            [ConfigItem.mk "b" [ConfigValue.String "x"] []])) 0]) :=
  claim8_ignored_any_and_unknown_keys.2 [("k", Shape.sbool)]
    [ConfigItem.mk "k" [ConfigValue.Boolean true] []]
    [ConfigItem.mk "b" [ConfigValue.String "x"] []]
    (.vstruct [("k", .vb true)])
    [DeType.Struct [("k", [DeConfig.Boolean true])] 0]
    (by
      intro i hi
      simp at hi
      subst hi
      simp [ConfigItem.key])
    (by
      intro i hi j hj
      simp at hi hj
      subst hi
      subst hj
      simp [ConfigItem.key])
    eval_simple_bool

end CollectdDe
